import Mathlib

/-!
Verification development for the SWIFT Mapping Updater reconciliation core
(`v1_SWIFT_Mapping_Updater.py`).  The embedding models the pure data
transformation: hierarchy-path construction (`build_path_column`) and the
difference-record pipeline inside `process_excel` (tiers 1–3 plus the
new/missing row scans).  Excel I/O, styling and the UI are out of scope.

Cells are modelled as strings after `strip_all_string_columns` has run
(every textual cell trimmed); a missing cell is an absent entry in the
row's association list, read back as `""` exactly where the code applies
`fillna("")` / `.get(col, "")`.  The pandas level cell is `nan`, an
integer, or a value `int()` rejects.
-/

/-- A `Lvl` cell: pandas `NaN` (missing), an integer value, or a malformed
value that `int(level)` raises `ValueError` on. -/
inductive LvlCell where
  | nan : LvlCell
  | val : Nat → LvlCell
  | bad : LvlCell
deriving DecidableEq

/-- One input row after trimming: the `Lvl` cell, the `XML Tag` cell, and the
remaining output-column cells (column name, value) — including `Name`. -/
structure Row where
  lvl : LvlCell
  tag : String
  cells : List (String × String)
deriving DecidableEq

/-- `row.get(col, "")` / `row[col]` after `fillna("")`: look a column up in a
row, defaulting to the empty string. -/
def getCell (r : Row) (c : String) : String :=
  ((r.cells.find? (fun p => p.1 = c)).map Prod.snd).getD ""

/-- `path_stack[level] = component` on the association-list rendering of the
Python dict: replace in place when the level is present, append otherwise. -/
def stackSet (s : List (Nat × String)) (l : Nat) (c : String) :
    List (Nat × String) :=
  if s.any (fun p => p.1 = l) then s.map (fun p => if p.1 = l then (l, c) else p)
  else s ++ [(l, c)]

/-- The deletion loop: drop every stack entry whose level exceeds `l`. -/
def stackPrune (s : List (Nat × String)) (l : Nat) : List (Nat × String) :=
  s.filter (fun p => p.1 ≤ l)

/-- Insert a level into a sorted level list (ascending). -/
def insertLevel (n : Nat) : List Nat → List Nat
  | [] => [n]
  | m :: ms => if n ≤ m then n :: m :: ms else m :: insertLevel n ms

/-- `sorted(path_stack.keys())`: the stack's levels in ascending order
(insertion sort, stable). -/
def sortLevels (s : List (Nat × String)) : List Nat :=
  (s.map Prod.fst).foldr insertLevel []

/-- `path_stack[lvl]`: the component stored at a level (first entry wins;
reachable stacks have distinct levels). -/
def stackGet (s : List (Nat × String)) (l : Nat) : String :=
  ((s.find? (fun p => p.1 = l)).map Prod.snd).getD ""

/-- The components of a stack in ascending level order. -/
def stackComponents (s : List (Nat × String)) : List String :=
  (sortLevels s).map (stackGet s)

/-- Processing one levelled row of `build_path_column`: assign the component,
prune deeper levels, render the path and derive the parent-child key.
Returns (new stack, path, parent-child key). -/
def buildRowStep (stack : List (Nat × String)) (level : Nat)
    (tag name : String) : List (Nat × String) × String × String :=
  let component := tag ++ "__" ++ name
  let stack1 := stackPrune (stackSet stack level component) level
  let comps := stackComponents stack1
  let path := String.intercalate " > " comps
  let meaningful := comps.filter (fun c => c ≠ "")
  let key := if 2 ≤ meaningful.length then
      String.intercalate " > " (meaningful.drop (meaningful.length - 2))
    else path
  (stack1, path, key)

/-- A row augmented with its hierarchy path and parent-child key
(`None` for rows whose level is missing). -/
structure BuiltRow where
  row : Row
  path : Option String
  pcKey : Option String
deriving DecidableEq

/-- The `build_path_column` loop from a given stack.  `none` models the
`ValueError` that `int(level)` raises on a malformed level cell. -/
def buildRows (stack : List (Nat × String)) :
    List Row → Option (List BuiltRow)
  | [] => some []
  | r :: rs =>
    match r.lvl with
    | .nan => (buildRows stack rs).map (fun l => ⟨r, none, none⟩ :: l)
    | .bad => none
    | .val level =>
      let st := buildRowStep stack level r.tag (getCell r "Name")
      (buildRows st.1 rs).map (fun l => ⟨r, some st.2.1, some st.2.2⟩ :: l)

/-- `build_path_column`: augment every row, starting from an empty stack. -/
def buildPathColumn (rows : List Row) : Option (List BuiltRow) :=
  buildRows [] rows

/-- The `Hierarchy Path` value after `fillna("")`. -/
def cleanPath (b : BuiltRow) : String := b.path.getD ""

/-- The (Hierarchy Path, XML Tag) primary key of a cleaned row. -/
def cleanKey (b : BuiltRow) : String × String := (cleanPath b, b.row.tag)

/-- `drop_duplicates(subset=key_cols)` with first occurrence kept, tracking
the set of keys already seen. -/
def dedupByKeyGo (seen : List (String × String)) :
    List BuiltRow → List BuiltRow
  | [] => []
  | b :: bs =>
    if cleanKey b ∈ seen then dedupByKeyGo seen bs
    else b :: dedupByKeyGo (cleanKey b :: seen) bs

/-- `source_clean = source_df[...].drop_duplicates(subset=key_cols)`. -/
def dedupByKey (bs : List BuiltRow) : List BuiltRow := dedupByKeyGo [] bs

/-- The key set of a list of cleaned rows. -/
def keysOf (bs : List BuiltRow) : List (String × String) := bs.map cleanKey

/-- The left-merge lookup: the (unique, post-dedup) source row with the given
key, if any. -/
def findByKey (bs : List BuiltRow) (k : String × String) : Option BuiltRow :=
  bs.find? (fun b => cleanKey b = k)

/-- The change-type labels of the `Type` field. -/
inductive DiffType where
  | changed | newInTest | missingInTest | changedFallback | changedLoose
deriving DecidableEq

/-- One difference record; `none` in a value field models pandas `NaN`
(the source side of a test row the left merge did not match). -/
structure DiffRecord where
  path : String
  tag : String
  column : String
  testValue : Option String
  sourceValue : Option String
  type : DiffType
deriving DecidableEq

/-- The source-side value of a merged pair for a column: `NaN` (`none`) when
the left merge found no source row. -/
def srcVal (p : BuiltRow × Option BuiltRow) (c : String) : Option String :=
  p.2.map (fun s => getCell s.row c)

/-- `merged[col] != merged[col_source]` for one cell: a `NaN` source side
compares unequal to everything. -/
def cellDiffers (tv : String) (sv : Option String) : Bool :=
  match sv with
  | none => true
  | some s => tv != s

/-- Tier 1 (`# 1. Exact match`): column-major scan of the merged frame; a
column is compared only when its `_source` twin exists, i.e. when the column
is present on both sides. -/
def changedRecords (tstCols srcCols : List String)
    (pairs : List (BuiltRow × Option BuiltRow)) : List DiffRecord :=
  tstCols.flatMap (fun c =>
    if srcCols.contains c then
      (pairs.filter (fun p => cellDiffers (getCell p.1.row c) (srcVal p c))).map
        (fun p => ⟨cleanPath p.1, p.1.row.tag, c, some (getCell p.1.row c),
                   srcVal p c, .changed⟩)
    else [])

/-- `New in Test` scan: one record per test output column for every test row
whose key is absent from the source key set. -/
def newRecords (tstCols : List String) (srcKeys : List (String × String))
    (bt : List BuiltRow) : List DiffRecord :=
  bt.flatMap (fun t =>
    if cleanKey t ∈ srcKeys then []
    else tstCols.map (fun c =>
      ⟨cleanPath t, t.row.tag, c, some (getCell t.row c), some "",
       .newInTest⟩))

/-- `Missing in Test` scan: one record per test output column for every
deduplicated source row whose key is absent from the test key set. -/
def missingRecords (tstCols : List String) (tstKeys : List (String × String))
    (srcClean : List BuiltRow) : List DiffRecord :=
  srcClean.flatMap (fun s =>
    if cleanKey s ∈ tstKeys then []
    else tstCols.map (fun c =>
      ⟨cleanPath s, s.row.tag, c, some "", some (getCell s.row c),
       .missingInTest⟩))

/-- The projection of a source row onto the parent-child fallback frame
(`source_df[[parent_child_key_col, 'XML Tag'] + source_output_columns]`). -/
structure FallbackRow where
  pcKey : Option String
  tag : String
  cells : List (String × String)
deriving DecidableEq

/-- Project a built source row onto the fallback columns. -/
def projectFallback (srcCols : List String) (b : BuiltRow) : FallbackRow :=
  ⟨b.pcKey, b.row.tag, srcCols.map (fun c => (c, getCell b.row c))⟩

/-- Cell lookup in a projected fallback row. -/
def getFallbackCell (f : FallbackRow) (c : String) : String :=
  ((f.cells.find? (fun p => p.1 = c)).map Prod.snd).getD ""

/-- `drop_duplicates()` on whole projected rows, first occurrence kept. -/
def dedupFullGo (seen : List FallbackRow) :
    List FallbackRow → List FallbackRow
  | [] => []
  | f :: fs =>
    if f ∈ seen then dedupFullGo seen fs
    else f :: dedupFullGo (f :: seen) fs

/-- `source_df[...].drop_duplicates()` for the fallback join. -/
def dedupFull (fs : List FallbackRow) : List FallbackRow := dedupFullGo [] fs

/-- Tier 2 (`# 3. Parent-Child fallback`): inner join of the unmatched test
rows with the full-row-deduplicated source projection on
(Parent-Child Key, XML Tag), then the column-major diff scan. -/
def fallbackRecords (tstCols srcCols : List String)
    (pairs : List (BuiltRow × FallbackRow)) : List DiffRecord :=
  tstCols.flatMap (fun c =>
    if srcCols.contains c then
      (pairs.filter
          (fun p => getCell p.1.row c != getFallbackCell p.2 c)).map
        (fun p => ⟨"", p.1.row.tag, c, some (getCell p.1.row c),
                   some (getFallbackCell p.2 c), .changedFallback⟩)
    else [])

/-- Python `str.strip()` on a modelled cell value. -/
def pyStrip (s : String) : String :=
  ⟨((s.data.dropWhile Char.isWhitespace).reverse.dropWhile
      Char.isWhitespace).reverse⟩

/-- `value_counts()[tag]`: how many rows of a frame carry a tag. -/
def tagCount (rows : List Row) (tag : String) : Nat :=
  (rows.filter (fun r => r.tag = tag)).length

/-- First-occurrence deduplication of a tag list (`test_counts.index`
enumerates each distinct test tag once). -/
def dedupTagsGo (seen : List String) : List String → List String
  | [] => []
  | t :: ts =>
    if t ∈ seen then dedupTagsGo seen ts
    else t :: dedupTagsGo (t :: seen) ts

/-- The tags the loose tier selects: tags occurring exactly once in the test
frame and exactly once in the source frame (enumerated in first-occurrence
order of the test frame). -/
def uniqueTags (srcRows tstRows : List Row) : List String :=
  (dedupTagsGo [] (tstRows.map Row.tag)).filter
    (fun tag => tagCount tstRows tag = 1 ∧ tagCount srcRows tag = 1)

/-- Tier 3 (`# 4. Loose fallback`): for every tag unique in both frames, pair
the single test row with the single source row and record every test output
column whose stripped values differ. -/
def looseRecords (tstCols : List String) (srcRows tstRows : List Row) :
    List DiffRecord :=
  (uniqueTags srcRows tstRows).flatMap (fun tag =>
    match tstRows.find? (fun r => r.tag = tag),
          srcRows.find? (fun r => r.tag = tag) with
    | some t, some s =>
      tstCols.filterMap (fun c =>
        let tv := pyStrip (getCell t c)
        let sv := pyStrip (getCell s c)
        if tv ≠ sv then some ⟨"", tag, c, some tv, some sv, .changedLoose⟩
        else none)
    | _, _ => [])

/-- A dataset handed to the engine: its output (non-structural, non-key)
column names and its rows, after sheet concatenation and trimming. -/
structure Dataset where
  cols : List String
  rows : List Row

/-- The left merge of tier 1: every cleaned test row (duplicates included)
paired with the deduplicated source row of its key, if any. -/
def mergedPairs (srcClean bt : List BuiltRow) :
    List (BuiltRow × Option BuiltRow) :=
  bt.map (fun t => (t, findByKey srcClean (cleanKey t)))

/-- `test_unmatched`: the test rows whose (Hierarchy Path, XML Tag) pair is
in `test_keys - source_keys` (a row with no path never is: its path is
`None`, never a string). -/
def unmatchedTestRows (srcKeys : List (String × String))
    (bt : List BuiltRow) : List BuiltRow :=
  bt.filter (fun t =>
    match t.path with
    | some p => (p, t.row.tag) ∈ (keysOf bt).filter (fun k => k ∉ srcKeys)
    | none => false)

/-- `fallback_merged`: inner join of the unmatched test rows with the
full-row-deduplicated source projection on (Parent-Child Key, XML Tag),
left order outer, right order inner. -/
def fallbackPairs (srcCols : List String) (bs bt : List BuiltRow) :
    List (BuiltRow × FallbackRow) :=
  (unmatchedTestRows (keysOf (dedupByKey bs)) bt).flatMap (fun t =>
    ((dedupFull (bs.map (projectFallback srcCols))).filter
        (fun s => s.pcKey = t.pcKey ∧ s.tag = t.row.tag)).map
      (fun s => (t, s)))

/-- The difference-record pipeline of `process_excel` (tiers in source
order: exact-match changes, new rows, missing rows, parent-child fallback,
loose fallback).  `none` models the `ValueError` escaping from
`build_path_column`. -/
def processExcel (src tst : Dataset) : Option (List DiffRecord) :=
  match buildPathColumn src.rows, buildPathColumn tst.rows with
  | some bs, some bt =>
    some (changedRecords tst.cols src.cols (mergedPairs (dedupByKey bs) bt)
      ++ newRecords tst.cols (keysOf (dedupByKey bs)) bt
      ++ missingRecords tst.cols (keysOf bt) (dedupByKey bs)
      ++ fallbackRecords tst.cols src.cols (fallbackPairs src.cols bs bt)
      ++ looseRecords tst.cols src.rows tst.rows)
  | _, _ => none

/-! ### Concrete inputs used by the example-level theorems -/

/-- A single level-0 row with a given tag, name and `Value` cell. -/
def mkRow0 (tag name v : String) : Row :=
  ⟨.val 0, tag, [("Name", name), ("Value", v)]⟩

/-- §8 scenario, source side: `(level=0, tag="A", name="Root", Value="X")`. -/
def srcScenario : Dataset := ⟨["Name", "Value"], [mkRow0 "A" "Root" "X"]⟩

/-- §8 scenario, test side: `(level=0, tag="A", name="Root", Value="Y")`. -/
def tstScenario : Dataset := ⟨["Name", "Value"], [mkRow0 "A" "Root" "Y"]⟩

/-- Tier-precedence input, source side: one row, key ("T__N", "T"). -/
def srcTier : Dataset := ⟨["Name", "Value"], [mkRow0 "T" "N" "P"]⟩

/-- Tier-precedence input, test side: same key, different `Value`. -/
def tstTier : Dataset := ⟨["Name", "Value"], [mkRow0 "T" "N" "Q"]⟩

/-- Diff-classifier input, source side: `Value` present. -/
def srcOneEmpty : Dataset := ⟨["Name", "Value"], [mkRow0 "A" "R" "X"]⟩

/-- Diff-classifier input, test side: same key, `Value` empty after
trimming. -/
def tstOneEmpty : Dataset := ⟨["Name", "Value"], [mkRow0 "A" "R" ""]⟩

/-- Row-presence input, source side: key ("A__R", "A") only. -/
def srcPresence : Dataset := ⟨["Name", "Value"], [mkRow0 "A" "R" "X"]⟩

/-- Row-presence input, test side: key ("B__S", "B") only. -/
def tstPresence : Dataset := ⟨["Name", "Value"], [mkRow0 "B" "S" "Y"]⟩

/-- Swap-symmetry input, source side: key ("A__N", "A") only. -/
def srcSwap : Dataset := ⟨["Name", "Value"], [mkRow0 "A" "N" "X"]⟩

/-- Swap-symmetry input, test side: key ("B__M", "B") only. -/
def tstSwap : Dataset := ⟨["Name", "Value"], [mkRow0 "B" "M" "Y"]⟩

/-- A row at a given level with only a `Name` cell. -/
def mkLvlRow (l : Nat) (tag name : String) : Row :=
  ⟨.val l, tag, [("Name", name)]⟩

/-- The §8 stack-truncation row sequence at levels [0, 1, 2, 1]. -/
def rowsLvl0121 : List Row :=
  [mkLvlRow 0 "t0" "n0", mkLvlRow 1 "t1" "n1",
   mkLvlRow 2 "t2" "n2", mkLvlRow 1 "t3" "n3"]

/-- A row whose level cell `int()` rejects. -/
def badLvlRow : Row := ⟨.bad, "A", [("Name", "R")]⟩

/-- A row whose level cell is pandas `NaN`. -/
def nanLvlRow : Row := ⟨.nan, "B", [("Name", "S")]⟩

/-- Exchanging the test-side and source-side values of a record (the label
swap of the direction-symmetry property). -/
def swapRec (r : DiffRecord) : DiffRecord :=
  ⟨r.path, r.tag, r.column, r.sourceValue, r.testValue, r.type⟩

/-- The built row of `tstOneEmpty`. -/
def tstOneEmptyBuilt : BuiltRow :=
  ⟨mkRow0 "A" "R" "", some "A__R", some "A__R"⟩

/-- The built row of `srcOneEmpty`. -/
def srcOneEmptyBuilt : BuiltRow :=
  ⟨mkRow0 "A" "R" "X", some "A__R", some "A__R"⟩

/-- The record list `process_excel` produces on
(`srcPresence`, `tstPresence`). -/
def recsPresence : List DiffRecord :=
  [⟨"B__S", "B", "Name", some "S", none, .changed⟩,
   ⟨"B__S", "B", "Value", some "Y", none, .changed⟩,
   ⟨"B__S", "B", "Name", some "S", some "", .newInTest⟩,
   ⟨"B__S", "B", "Value", some "Y", some "", .newInTest⟩,
   ⟨"A__R", "A", "Name", some "", some "R", .missingInTest⟩,
   ⟨"A__R", "A", "Value", some "", some "X", .missingInTest⟩]

/-- Two duplicate-key test rows joined against one source row (tier-1 pair
list with an un-deduplicated test side). -/
def dupTestPairs : List (BuiltRow × Option BuiltRow) :=
  [(⟨mkRow0 "A" "R" "Y", some "A__R", some "A__R"⟩,
    some ⟨mkRow0 "A" "R" "X", some "A__R", some "A__R"⟩),
   (⟨mkRow0 "A" "R" "Z", some "A__R", some "A__R"⟩,
    some ⟨mkRow0 "A" "R" "X", some "A__R", some "A__R"⟩)]

/-! ### Helper lemmas -/

lemma mem_keysOf {l : List BuiltRow} {k : String × String} :
    k ∈ keysOf l ↔ ∃ b ∈ l, cleanKey b = k := by
  simp [keysOf, List.mem_map]

lemma cleanKey_mem_keysOf {l : List BuiltRow} {b : BuiltRow} (h : b ∈ l) :
    cleanKey b ∈ keysOf l :=
  mem_keysOf.mpr ⟨b, h, rfl⟩

lemma findByKey_eq_some {l : List BuiltRow} {k : String × String}
    {b : BuiltRow} (h : findByKey l k = some b) : b ∈ l ∧ cleanKey b = k := by
  refine ⟨List.mem_of_find?_eq_some h, ?_⟩
  have := List.find?_some h
  simpa using this

lemma findByKey_isSome_of_mem_keys {l : List BuiltRow} {k : String × String}
    (h : k ∈ keysOf l) : (findByKey l k).isSome := by
  obtain ⟨b, hb, rfl⟩ := mem_keysOf.mp h
  exact List.find?_isSome.mpr ⟨b, hb, by simp⟩

lemma findByKey_self_of_nodup {l : List BuiltRow} {t : BuiltRow}
    (hn : (keysOf l).Nodup) (ht : t ∈ l) :
    findByKey l (cleanKey t) = some t := by
  induction l with
  | nil => cases ht
  | cons b bs ih =>
    simp only [keysOf, List.map_cons, List.nodup_cons] at hn
    rcases List.mem_cons.mp ht with rfl | hmem
    · simp [findByKey]
    · have hne : cleanKey b ≠ cleanKey t := by
        intro he
        exact hn.1 (he ▸ cleanKey_mem_keysOf hmem)
      simp only [findByKey, List.find?_cons]
      rw [show (decide (cleanKey b = cleanKey t)) = false by simpa using hne]
      exact ih hn.2 hmem

lemma findByKey_dedupByKeyGo (seen : List (String × String))
    (l : List BuiltRow) (k : String × String) (hk : k ∉ seen) :
    findByKey (dedupByKeyGo seen l) k = findByKey l k := by
  induction l generalizing seen with
  | nil => rfl
  | cons b bs ih =>
    by_cases hb : cleanKey b ∈ seen
    · have hne : ¬ (cleanKey b = k) := fun he => hk (he ▸ hb)
      simp only [dedupByKeyGo, if_pos hb, findByKey, List.find?_cons]
      rw [show (decide (cleanKey b = k)) = false by simpa using hne]
      exact ih seen hk
    · simp only [dedupByKeyGo, if_neg hb, findByKey, List.find?_cons]
      cases hdec : decide (cleanKey b = k) with
      | true => rfl
      | false =>
        have hne : cleanKey b ≠ k := by simpa using hdec
        refine ih (cleanKey b :: seen) ?_
        intro hmem
        rcases List.mem_cons.mp hmem with he | hs
        · exact hne he.symm
        · exact hk hs

lemma findByKey_dedupByKey (l : List BuiltRow) (k : String × String) :
    findByKey (dedupByKey l) k = findByKey l k :=
  findByKey_dedupByKeyGo [] l k (by simp)

lemma keysOf_dedupByKeyGo (seen : List (String × String))
    (l : List BuiltRow) :
    (keysOf (dedupByKeyGo seen l)).Nodup ∧
      ∀ k ∈ keysOf (dedupByKeyGo seen l), k ∉ seen := by
  induction l generalizing seen with
  | nil => exact ⟨List.nodup_nil, by simp [keysOf, dedupByKeyGo]⟩
  | cons b bs ih =>
    by_cases hb : cleanKey b ∈ seen
    · simpa [dedupByKeyGo, if_pos hb] using ih seen
    · have h' := ih (cleanKey b :: seen)
      refine ⟨?_, ?_⟩
      · simp only [dedupByKeyGo, if_neg hb, keysOf, List.map_cons,
          List.nodup_cons]
        exact ⟨fun hmem => (h'.2 _ hmem) (List.mem_cons_self _ _), h'.1⟩
      · intro k hk
        simp only [dedupByKeyGo, if_neg hb, keysOf, List.map_cons,
          List.mem_cons] at hk
        rcases hk with rfl | hk
        · exact hb
        · exact fun hs => (h'.2 _ hk) (List.mem_cons_of_mem _ hs)

lemma keysOf_dedupByKey_nodup (l : List BuiltRow) :
    (keysOf (dedupByKey l)).Nodup :=
  (keysOf_dedupByKeyGo [] l).1

lemma mem_dedupByKeyGo {seen : List (String × String)} {l : List BuiltRow}
    {b : BuiltRow} (h : b ∈ dedupByKeyGo seen l) : b ∈ l := by
  induction l generalizing seen with
  | nil => cases h
  | cons x xs ih =>
    by_cases hx : cleanKey x ∈ seen
    · simp only [dedupByKeyGo, if_pos hx] at h
      exact List.mem_cons_of_mem _ (ih h)
    · simp only [dedupByKeyGo, if_neg hx, List.mem_cons] at h
      rcases h with rfl | h
      · exact List.mem_cons_self _ _
      · exact List.mem_cons_of_mem _ (ih h)

lemma dedupByKeyGo_eq_self (seen : List (String × String))
    (l : List BuiltRow) (hn : (keysOf l).Nodup)
    (hd : ∀ k ∈ keysOf l, k ∉ seen) : dedupByKeyGo seen l = l := by
  induction l generalizing seen with
  | nil => rfl
  | cons b bs ih =>
    simp only [keysOf, List.map_cons, List.nodup_cons] at hn
    have hb : cleanKey b ∉ seen := hd _ (by simp [keysOf])
    simp only [dedupByKeyGo, if_neg hb]
    congr 1
    refine ih (cleanKey b :: seen) hn.2 ?_
    intro k hk
    simp only [List.mem_cons, not_or]
    exact ⟨fun he => hn.1 (he ▸ hk), hd _ (by simp [keysOf, List.mem_cons]; right; simpa [keysOf] using hk)⟩

lemma dedupByKey_eq_self {l : List BuiltRow} (hn : (keysOf l).Nodup) :
    dedupByKey l = l :=
  dedupByKeyGo_eq_self [] l hn (by simp)

lemma mem_changedRecords {tc sc : List String}
    {ps : List (BuiltRow × Option BuiltRow)} {r : DiffRecord} :
    r ∈ changedRecords tc sc ps ↔
      ∃ c ∈ tc, sc.contains c = true ∧ ∃ p ∈ ps,
        cellDiffers (getCell p.1.row c) (srcVal p c) = true ∧
        r = ⟨cleanPath p.1, p.1.row.tag, c, some (getCell p.1.row c),
             srcVal p c, .changed⟩ := by
  simp only [changedRecords, List.mem_flatMap]
  constructor
  · rintro ⟨c, hc, hr⟩
    by_cases hsc : sc.contains c = true
    · rw [if_pos hsc] at hr
      obtain ⟨p, hp, rfl⟩ := List.mem_map.mp hr
      obtain ⟨hpmem, hdiff⟩ := List.mem_filter.mp hp
      exact ⟨c, hc, hsc, p, hpmem, hdiff, rfl⟩
    · rw [if_neg hsc] at hr
      cases hr
  · rintro ⟨c, hc, hsc, p, hp, hdiff, rfl⟩
    refine ⟨c, hc, ?_⟩
    rw [if_pos hsc]
    exact List.mem_map.mpr ⟨p, List.mem_filter.mpr ⟨hp, hdiff⟩, rfl⟩

lemma mem_newRecords {tc : List String} {sk : List (String × String)}
    {bt : List BuiltRow} {r : DiffRecord} :
    r ∈ newRecords tc sk bt ↔
      ∃ t ∈ bt, cleanKey t ∉ sk ∧ ∃ c ∈ tc,
        r = ⟨cleanPath t, t.row.tag, c, some (getCell t.row c), some "",
             .newInTest⟩ := by
  simp only [newRecords, List.mem_flatMap]
  constructor
  · rintro ⟨t, ht, hr⟩
    by_cases hk : cleanKey t ∈ sk
    · rw [if_pos hk] at hr
      cases hr
    · rw [if_neg hk] at hr
      obtain ⟨c, hc, rfl⟩ := List.mem_map.mp hr
      exact ⟨t, ht, hk, c, hc, rfl⟩
  · rintro ⟨t, ht, hk, c, hc, rfl⟩
    refine ⟨t, ht, ?_⟩
    rw [if_neg hk]
    exact List.mem_map.mpr ⟨c, hc, rfl⟩

lemma mem_missingRecords {tc : List String} {tk : List (String × String)}
    {sc : List BuiltRow} {r : DiffRecord} :
    r ∈ missingRecords tc tk sc ↔
      ∃ s ∈ sc, cleanKey s ∉ tk ∧ ∃ c ∈ tc,
        r = ⟨cleanPath s, s.row.tag, c, some "", some (getCell s.row c),
             .missingInTest⟩ := by
  simp only [missingRecords, List.mem_flatMap]
  constructor
  · rintro ⟨s, hs, hr⟩
    by_cases hk : cleanKey s ∈ tk
    · rw [if_pos hk] at hr
      cases hr
    · rw [if_neg hk] at hr
      obtain ⟨c, hc, rfl⟩ := List.mem_map.mp hr
      exact ⟨s, hs, hk, c, hc, rfl⟩
  · rintro ⟨s, hs, hk, c, hc, rfl⟩
    refine ⟨s, hs, ?_⟩
    rw [if_neg hk]
    exact List.mem_map.mpr ⟨c, hc, rfl⟩

lemma mem_fallbackRecords {tc sc : List String}
    {ps : List (BuiltRow × FallbackRow)} {r : DiffRecord} :
    r ∈ fallbackRecords tc sc ps ↔
      ∃ c ∈ tc, sc.contains c = true ∧ ∃ p ∈ ps,
        (getCell p.1.row c != getFallbackCell p.2 c) = true ∧
        r = ⟨"", p.1.row.tag, c, some (getCell p.1.row c),
             some (getFallbackCell p.2 c), .changedFallback⟩ := by
  simp only [fallbackRecords, List.mem_flatMap]
  constructor
  · rintro ⟨c, hc, hr⟩
    by_cases hsc : sc.contains c = true
    · rw [if_pos hsc] at hr
      obtain ⟨p, hp, rfl⟩ := List.mem_map.mp hr
      obtain ⟨hpmem, hdiff⟩ := List.mem_filter.mp hp
      exact ⟨c, hc, hsc, p, hpmem, hdiff, rfl⟩
    · rw [if_neg hsc] at hr
      cases hr
  · rintro ⟨c, hc, hsc, p, hp, hdiff, rfl⟩
    refine ⟨c, hc, ?_⟩
    rw [if_pos hsc]
    exact List.mem_map.mpr ⟨p, List.mem_filter.mpr ⟨hp, hdiff⟩, rfl⟩

lemma mem_looseRecords {tc : List String} {srcRows tstRows : List Row}
    {r : DiffRecord} :
    r ∈ looseRecords tc srcRows tstRows ↔
      ∃ tag ∈ uniqueTags srcRows tstRows, ∃ t s : Row,
        tstRows.find? (fun x => x.tag = tag) = some t ∧
        srcRows.find? (fun x => x.tag = tag) = some s ∧
        ∃ c ∈ tc, pyStrip (getCell t c) ≠ pyStrip (getCell s c) ∧
          r = ⟨"", tag, c, some (pyStrip (getCell t c)),
               some (pyStrip (getCell s c)), .changedLoose⟩ := by
  simp only [looseRecords, List.mem_flatMap]
  constructor
  · rintro ⟨tag, htag, hr⟩
    cases h1 : tstRows.find? (fun x => x.tag = tag) with
    | none => rw [h1] at hr; cases hr
    | some t =>
      cases h2 : srcRows.find? (fun x => x.tag = tag) with
      | none => rw [h1, h2] at hr; cases hr
      | some s =>
        rw [h1, h2] at hr
        obtain ⟨c, hc, hfc⟩ := List.mem_filterMap.mp hr
        by_cases hne : pyStrip (getCell t c) ≠ pyStrip (getCell s c)
        · rw [if_pos hne] at hfc
          obtain rfl := Option.some.inj hfc
          exact ⟨tag, htag, t, s, h1, h2, c, hc, hne, rfl⟩
        · rw [if_neg hne] at hfc
          cases hfc
  · rintro ⟨tag, htag, t, s, h1, h2, c, hc, hne, rfl⟩
    refine ⟨tag, htag, ?_⟩
    rw [h1, h2]
    exact List.mem_filterMap.mpr ⟨c, hc, by rw [if_pos hne]⟩

lemma type_of_changedRecords {tc sc : List String}
    {ps : List (BuiltRow × Option BuiltRow)} {r : DiffRecord}
    (h : r ∈ changedRecords tc sc ps) : r.type = .changed := by
  obtain ⟨c, _, _, p, _, _, rfl⟩ := mem_changedRecords.mp h
  rfl

lemma type_of_newRecords {tc : List String} {sk : List (String × String)}
    {bt : List BuiltRow} {r : DiffRecord} (h : r ∈ newRecords tc sk bt) :
    r.type = .newInTest := by
  obtain ⟨t, _, _, c, _, rfl⟩ := mem_newRecords.mp h
  rfl

lemma type_of_missingRecords {tc : List String} {tk : List (String × String)}
    {sc : List BuiltRow} {r : DiffRecord} (h : r ∈ missingRecords tc tk sc) :
    r.type = .missingInTest := by
  obtain ⟨s, _, _, c, _, rfl⟩ := mem_missingRecords.mp h
  rfl

lemma type_of_fallbackRecords {tc sc : List String}
    {ps : List (BuiltRow × FallbackRow)} {r : DiffRecord}
    (h : r ∈ fallbackRecords tc sc ps) : r.type = .changedFallback := by
  obtain ⟨c, _, _, p, _, _, rfl⟩ := mem_fallbackRecords.mp h
  rfl

lemma type_of_looseRecords {tc : List String} {srcRows tstRows : List Row}
    {r : DiffRecord} (h : r ∈ looseRecords tc srcRows tstRows) :
    r.type = .changedLoose := by
  obtain ⟨tag, _, t, s, _, _, c, _, _, rfl⟩ := mem_looseRecords.mp h
  rfl

lemma mem_dedupTagsGo {seen l : List String} {x : String} :
    x ∈ dedupTagsGo seen l ↔ x ∈ l ∧ x ∉ seen := by
  induction l generalizing seen with
  | nil => simp [dedupTagsGo]
  | cons t ts ih =>
    by_cases ht : t ∈ seen
    · rw [dedupTagsGo, if_pos ht, ih]
      constructor
      · rintro ⟨hm, hns⟩
        exact ⟨List.mem_cons_of_mem _ hm, hns⟩
      · rintro ⟨hm, hns⟩
        rcases List.mem_cons.mp hm with rfl | hm
        · exact absurd ht hns
        · exact ⟨hm, hns⟩
    · rw [dedupTagsGo, if_neg ht]
      constructor
      · intro hm
        rcases List.mem_cons.mp hm with rfl | hm
        · exact ⟨List.mem_cons_self _ _, ht⟩
        · obtain ⟨h1, h2⟩ := ih.mp hm
          exact ⟨List.mem_cons_of_mem _ h1,
            fun hs => h2 (List.mem_cons_of_mem _ hs)⟩
      · rintro ⟨hm, hns⟩
        rcases List.mem_cons.mp hm with rfl | hm
        · exact List.mem_cons_self _ _
        · by_cases hxt : x = t
          · exact hxt ▸ List.mem_cons_self _ _
          · exact List.mem_cons_of_mem _
              (ih.mpr ⟨hm, by simp [List.mem_cons, hxt, hns]⟩)

lemma exists_row_of_tagCount_one {rows : List Row} {tag : String}
    (h : tagCount rows tag = 1) : ∃ r ∈ rows, r.tag = tag := by
  unfold tagCount at h
  have hne : rows.filter (fun r => r.tag = tag) ≠ [] := by
    intro he
    rw [he] at h
    cases h
  obtain ⟨r, hr⟩ := List.exists_mem_of_ne_nil _ hne
  obtain ⟨h1, h2⟩ := List.mem_filter.mp hr
  exact ⟨r, h1, by simpa using h2⟩

lemma mem_uniqueTags {srcRows tstRows : List Row} {tag : String} :
    tag ∈ uniqueTags srcRows tstRows ↔
      tagCount tstRows tag = 1 ∧ tagCount srcRows tag = 1 := by
  unfold uniqueTags
  constructor
  · intro h
    obtain ⟨_, hp⟩ := List.mem_filter.mp h
    simpa using hp
  · rintro ⟨h1, h2⟩
    refine List.mem_filter.mpr ⟨?_, by simp [h1, h2]⟩
    obtain ⟨r, hr, rfl⟩ := exists_row_of_tagCount_one h1
    exact mem_dedupTagsGo.mpr ⟨List.mem_map.mpr ⟨r, hr, rfl⟩, by simp⟩

lemma processExcel_eq {src tst : Dataset} {bs bt : List BuiltRow}
    (hs : buildPathColumn src.rows = some bs)
    (ht : buildPathColumn tst.rows = some bt) :
    processExcel src tst =
      some (changedRecords tst.cols src.cols (mergedPairs (dedupByKey bs) bt)
        ++ newRecords tst.cols (keysOf (dedupByKey bs)) bt
        ++ missingRecords tst.cols (keysOf bt) (dedupByKey bs)
        ++ fallbackRecords tst.cols src.cols (fallbackPairs src.cols bs bt)
        ++ looseRecords tst.cols src.rows tst.rows) := by
  simp [processExcel, hs, ht]

lemma mem_processExcel_changed {src tst : Dataset} {bs bt : List BuiltRow}
    {recs : List DiffRecord} {r : DiffRecord}
    (hs : buildPathColumn src.rows = some bs)
    (ht : buildPathColumn tst.rows = some bt)
    (hp : processExcel src tst = some recs)
    (hty : r.type = DiffType.changed) :
    r ∈ recs ↔
      r ∈ changedRecords tst.cols src.cols (mergedPairs (dedupByKey bs) bt) := by
  have he := processExcel_eq hs ht
  rw [hp] at he
  have hrecs := Option.some.inj he
  subst hrecs
  simp only [List.mem_append]
  constructor
  · rintro ((((h | h) | h) | h) | h)
    · exact h
    · rw [type_of_newRecords h] at hty
      cases hty
    · rw [type_of_missingRecords h] at hty
      cases hty
    · rw [type_of_fallbackRecords h] at hty
      cases hty
    · rw [type_of_looseRecords h] at hty
      cases hty
  · intro h
    exact Or.inl (Or.inl (Or.inl (Or.inl h)))

lemma mem_processExcel_of_loose {src tst : Dataset} {bs bt : List BuiltRow}
    {recs : List DiffRecord} {r : DiffRecord}
    (hs : buildPathColumn src.rows = some bs)
    (ht : buildPathColumn tst.rows = some bt)
    (hp : processExcel src tst = some recs)
    (h : r ∈ looseRecords tst.cols src.rows tst.rows) : r ∈ recs := by
  have he := processExcel_eq hs ht
  rw [hp] at he
  have hrecs := Option.some.inj he
  subst hrecs
  simp only [List.mem_append]
  exact Or.inr h

lemma buildRowStep_stack_def (s : List (Nat × String)) (l : Nat)
    (t n : String) :
    (buildRowStep s l t n).1 = stackPrune (stackSet s l (t ++ "__" ++ n)) l :=
  rfl

lemma buildRowStep_path_def (s : List (Nat × String)) (l : Nat)
    (t n : String) :
    (buildRowStep s l t n).2.1 =
      String.intercalate " > " (stackComponents (buildRowStep s l t n).1) :=
  rfl

lemma buildRowStep_key_def (s : List (Nat × String)) (l : Nat)
    (t n : String) :
    (buildRowStep s l t n).2.2 =
      (if 2 ≤ ((stackComponents (buildRowStep s l t n).1).filter
          (fun x => x ≠ "")).length then
        String.intercalate " > "
          (((stackComponents (buildRowStep s l t n).1).filter
              (fun x => x ≠ "")).drop
            (((stackComponents (buildRowStep s l t n).1).filter
                (fun x => x ≠ "")).length - 2))
      else (buildRowStep s l t n).2.1) :=
  rfl

lemma mem_buildRowStep_le {s : List (Nat × String)} {l : Nat} {t n : String}
    {p : Nat × String} (h : p ∈ (buildRowStep s l t n).1) : p.1 ≤ l := by
  rw [buildRowStep_stack_def] at h
  have := (List.mem_filter.mp h).2
  simpa using this

lemma mem_buildRowStep_key_eq {s : List (Nat × String)} {l : Nat}
    {c : String} {p : Nat × String}
    (h : p ∈ stackPrune (stackSet s l c) l) (hp : p.1 = l) : p = (l, c) := by
  unfold stackPrune at h
  have hmem := (List.mem_filter.mp h).1
  unfold stackSet at hmem
  by_cases hany : s.any (fun q => q.1 = l) = true
  · rw [if_pos hany] at hmem
    obtain ⟨a, _, hfa⟩ := List.mem_map.mp hmem
    by_cases hal : a.1 = l
    · rw [if_pos hal] at hfa
      exact hfa.symm
    · rw [if_neg hal] at hfa
      exact absurd (hfa ▸ hp) hal
  · rw [if_neg hany] at hmem
    rcases List.mem_append.mp hmem with hin | hone
    · have hall := List.any_eq_false.mp (Bool.not_eq_true _ ▸ hany)
      exact absurd (by simpa using hp) (by simpa using hall p hin)
    · simpa using hone

lemma self_mem_stackStep (s : List (Nat × String)) (l : Nat) (c : String) :
    (l, c) ∈ stackPrune (stackSet s l c) l := by
  unfold stackPrune
  refine List.mem_filter.mpr ⟨?_, by simp⟩
  unfold stackSet
  by_cases hany : s.any (fun q => q.1 = l) = true
  · rw [if_pos hany]
    obtain ⟨a, ha, hal⟩ := List.any_eq_true.mp hany
    refine List.mem_map.mpr ⟨a, ha, ?_⟩
    rw [if_pos (by simpa using hal)]
  · rw [if_neg hany]
    exact List.mem_append.mpr (Or.inr (List.mem_cons_self _ _))

lemma stackGet_stackStep (s : List (Nat × String)) (l : Nat) (c : String) :
    stackGet (stackPrune (stackSet s l c) l) l = c := by
  have hsome : (List.find? (fun p => p.1 = l)
      (stackPrune (stackSet s l c) l)).isSome := by
    exact List.find?_isSome.mpr ⟨(l, c), self_mem_stackStep s l c, by simp⟩
  obtain ⟨q, hq⟩ := Option.isSome_iff_exists.mp hsome
  have hql : q.1 = l := by simpa using List.find?_some hq
  have := mem_buildRowStep_key_eq (List.mem_of_find?_eq_some hq) hql
  unfold stackGet
  rw [hq, this]
  rfl

lemma buildRows_nan_step (stack : List (Nat × String)) (r : Row)
    (rs : List Row) (h : r.lvl = .nan) :
    buildRows stack (r :: rs) =
      (buildRows stack rs).map (fun l => ⟨r, none, none⟩ :: l) := by
  rw [buildRows, h]

lemma buildRows_isSome (rows : List Row) :
    ∀ stack, (∀ r ∈ rows, r.lvl ≠ .bad) → (buildRows stack rows).isSome := by
  induction rows with
  | nil => intro stack _; simp [buildRows]
  | cons r rs ih =>
    intro stack hbad
    have hr : r.lvl ≠ .bad := hbad r (List.mem_cons_self _ _)
    have hrs : ∀ x ∈ rs, x.lvl ≠ .bad :=
      fun x hx => hbad x (List.mem_cons_of_mem _ hx)
    rw [buildRows]
    cases hlv : r.lvl with
    | nan => simpa using ih stack hrs
    | bad => exact absurd hlv hr
    | val lv =>
      simpa using ih (buildRowStep stack lv r.tag (getCell r "Name")).1 hrs

lemma buildRows_path_pcKey (rows : List Row) :
    ∀ (stack : List (Nat × String)) (built : List BuiltRow),
      buildRows stack rows = some built →
      ∀ b ∈ built, ∀ p : String, b.path = some p →
      ∃ comps : List String, p = String.intercalate " > " comps ∧
        b.pcKey = some (if 2 ≤ ((comps.filter (fun x => x ≠ "")).length) then
            String.intercalate " > " ((comps.filter (fun x => x ≠ "")).drop
              ((comps.filter (fun x => x ≠ "")).length - 2))
          else p) := by
  induction rows with
  | nil =>
    intro stack built h b hb
    rw [buildRows] at h
    obtain rfl := Option.some.inj h
    cases hb
  | cons r rs ih =>
    intro stack built h b hb p hp
    rw [buildRows] at h
    cases hlv : r.lvl with
    | bad =>
      rw [hlv] at h
      cases h
    | nan =>
      rw [hlv] at h
      obtain ⟨l', hl', rfl⟩ := Option.map_eq_some'.mp h
      rcases List.mem_cons.mp hb with rfl | hmem
      · cases hp
      · exact ih stack l' hl' b hmem p hp
    | val lv =>
      rw [hlv] at h
      obtain ⟨l', hl', rfl⟩ := Option.map_eq_some'.mp h
      rcases List.mem_cons.mp hb with rfl | hmem
      · refine ⟨stackComponents
          (buildRowStep stack lv r.tag (getCell r "Name")).1, ?_, ?_⟩
        · have := Option.some.inj hp
          rw [← this, buildRowStep_path_def]
        · have hpeq : p = (buildRowStep stack lv r.tag (getCell r "Name")).2.1 :=
            (Option.some.inj hp).symm
          rw [hpeq]
          exact congrArg some (buildRowStep_key_def stack lv r.tag (getCell r "Name"))
      · exact ih _ l' hl' b hmem p hp

lemma findByKey_eq_none {l : List BuiltRow} {k : String × String}
    (h : k ∉ keysOf l) : findByKey l k = none := by
  cases hf : findByKey l k with
  | none => rfl
  | some b =>
    obtain ⟨hb, hk⟩ := findByKey_eq_some hf
    exact absurd (hk ▸ cleanKey_mem_keysOf hb) h

lemma column_of_changedRecords {tc sc : List String}
    {ps : List (BuiltRow × Option BuiltRow)} {r : DiffRecord}
    (h : r ∈ changedRecords tc sc ps) : r.column ∈ tc := by
  obtain ⟨c, hc, _, p, _, _, rfl⟩ := mem_changedRecords.mp h
  exact hc

lemma key_of_missingRecords {tc : List String} {tk : List (String × String)}
    {sc : List BuiltRow} {r : DiffRecord} (h : r ∈ missingRecords tc tk sc) :
    (r.path, r.tag) ∈ keysOf sc := by
  obtain ⟨s, hs, _, c, _, rfl⟩ := mem_missingRecords.mp h
  exact cleanKey_mem_keysOf hs

lemma count_missingRecords_eq_one {tc : List String}
    {tk : List (String × String)} {sc : List BuiltRow}
    (hnk : (keysOf sc).Nodup) (hnc : tc.Nodup) {s : BuiltRow} (hs : s ∈ sc)
    (hk : cleanKey s ∉ tk) {c : String} (hc : c ∈ tc) :
    (missingRecords tc tk sc).count
      ⟨cleanPath s, s.row.tag, c, some "", some (getCell s.row c),
       .missingInTest⟩ = 1 := by
  induction sc with
  | nil => cases hs
  | cons b rest ih =>
    simp only [keysOf, List.map_cons, List.nodup_cons] at hnk
    have hexp : missingRecords tc tk (b :: rest) =
        (if cleanKey b ∈ tk then [] else tc.map (fun c' =>
          ⟨cleanPath b, b.row.tag, c', some "", some (getCell b.row c'),
           .missingInTest⟩)) ++ missingRecords tc tk rest := by
      simp [missingRecords, List.flatMap_cons]
    rw [hexp, List.count_append]
    rcases List.mem_cons.mp hs with rfl | hmem
    · rw [if_neg hk]
      have hinj : Function.Injective (fun c' : String =>
          (⟨cleanPath s, s.row.tag, c', some "", some (getCell s.row c'),
            .missingInTest⟩ : DiffRecord)) := by
        intro a b hab
        simpa using congrArg DiffRecord.column hab
      have h1 : (tc.map (fun c' =>
          (⟨cleanPath s, s.row.tag, c', some "", some (getCell s.row c'),
            .missingInTest⟩ : DiffRecord))).count
            ⟨cleanPath s, s.row.tag, c, some "", some (getCell s.row c),
             .missingInTest⟩ = tc.count c :=
        List.count_map_of_injective tc _ hinj c
      rw [h1, List.count_eq_one_of_mem hnc hc]
      have h0 : (missingRecords tc tk rest).count
          ⟨cleanPath s, s.row.tag, c, some "", some (getCell s.row c),
           .missingInTest⟩ = 0 := by
        refine List.count_eq_zero.mpr ?_
        intro hmem'
        have hkey : cleanKey s ∈ List.map cleanKey rest :=
          key_of_missingRecords hmem'
        exact hnk.1 hkey
      rw [h0]
    · have h0 : (if cleanKey b ∈ tk then ([] : List DiffRecord)
          else tc.map (fun c' =>
            ⟨cleanPath b, b.row.tag, c', some "", some (getCell b.row c'),
             .missingInTest⟩)).count
            ⟨cleanPath s, s.row.tag, c, some "", some (getCell s.row c),
             .missingInTest⟩ = 0 := by
        refine List.count_eq_zero.mpr ?_
        intro hmem'
        by_cases hb : cleanKey b ∈ tk
        · rw [if_pos hb] at hmem'
          cases hmem'
        · rw [if_neg hb] at hmem'
          obtain ⟨c', _, heq⟩ := List.mem_map.mp hmem'
          have h1 : cleanPath b = cleanPath s := congrArg DiffRecord.path heq
          have h2 : b.row.tag = s.row.tag := congrArg DiffRecord.tag heq
          have hpk : cleanKey b = cleanKey s := by
            show (cleanPath b, b.row.tag) = (cleanPath s, s.row.tag)
            rw [h1, h2]
          exact hnk.1 (hpk ▸ cleanKey_mem_keysOf hmem)
      rw [h0, ih hnk.2 hmem]

lemma swapRec_swapRec (r : DiffRecord) : swapRec (swapRec r) = r := rfl

lemma changedRecords_cons (c0 : String) (rest : List String)
    (sc : List String) (ps : List (BuiltRow × Option BuiltRow)) :
    changedRecords (c0 :: rest) sc ps =
      (if sc.contains c0 then
        (ps.filter (fun p =>
            cellDiffers (getCell p.1.row c0) (srcVal p c0))).map
          (fun p => ⟨cleanPath p.1, p.1.row.tag, c0,
                     some (getCell p.1.row c0), srcVal p c0, .changed⟩)
      else []) ++ changedRecords rest sc ps := by
  simp [changedRecords, List.flatMap_cons]

lemma changedRecords_filter_column {tc sc : List String}
    {ps : List (BuiltRow × Option BuiltRow)} {c : String}
    (hnc : tc.Nodup) (hc : c ∈ tc) (hsc : sc.contains c = true) :
    (changedRecords tc sc ps).filter (fun r => r.column = c) =
      (ps.filter (fun p => cellDiffers (getCell p.1.row c) (srcVal p c))).map
        (fun p => ⟨cleanPath p.1, p.1.row.tag, c, some (getCell p.1.row c),
                   srcVal p c, .changed⟩) := by
  induction tc with
  | nil => cases hc
  | cons c0 rest ih =>
    rw [List.nodup_cons] at hnc
    rw [changedRecords_cons, List.filter_append]
    rcases List.mem_cons.mp hc with rfl | hmem
    · rw [if_pos hsc]
      have h1 : ((ps.filter (fun p =>
            cellDiffers (getCell p.1.row c) (srcVal p c))).map
          (fun p => (⟨cleanPath p.1, p.1.row.tag, c,
                     some (getCell p.1.row c), srcVal p c,
                     .changed⟩ : DiffRecord))).filter
            (fun r => r.column = c) =
          (ps.filter (fun p =>
            cellDiffers (getCell p.1.row c) (srcVal p c))).map
          (fun p => ⟨cleanPath p.1, p.1.row.tag, c,
                     some (getCell p.1.row c), srcVal p c, .changed⟩) := by
        refine List.filter_eq_self.mpr ?_
        intro r hr
        obtain ⟨p, _, rfl⟩ := List.mem_map.mp hr
        simp
      have h2 : (changedRecords rest sc ps).filter
          (fun r => r.column = c) = [] := by
        refine List.filter_eq_nil_iff.mpr ?_
        intro r hr
        have hcol := column_of_changedRecords hr
        simp only [decide_eq_true_eq]
        intro he
        exact hnc.1 (he ▸ hcol)
      rw [h1, h2, List.append_nil]
    · have hne : c0 ≠ c := fun he => hnc.1 (he ▸ hmem)
      have h1 : (if sc.contains c0 = true then
          (ps.filter (fun p =>
              cellDiffers (getCell p.1.row c0) (srcVal p c0))).map
            (fun p => (⟨cleanPath p.1, p.1.row.tag, c0,
                       some (getCell p.1.row c0), srcVal p c0,
                       .changed⟩ : DiffRecord))
        else []).filter (fun r => r.column = c) = [] := by
        refine List.filter_eq_nil_iff.mpr ?_
        intro r hr
        by_cases hb : sc.contains c0 = true
        · rw [if_pos hb] at hr
          obtain ⟨p, _, rfl⟩ := List.mem_map.mp hr
          simpa using hne
        · rw [if_neg hb] at hr
          cases hr
      rw [h1, ih hnc.2 hmem, List.nil_append]

lemma changed_swap_aux {srcCols tstCols : List String}
    {bs bt : List BuiltRow} (hnb : (keysOf bs).Nodup)
    (hnt : (keysOf bt).Nodup)
    (hkeys : ∀ k, k ∈ keysOf bs ↔ k ∈ keysOf bt) {r : DiffRecord}
    (h : r ∈ changedRecords tstCols srcCols (mergedPairs (dedupByKey bs) bt)) :
    swapRec r ∈
      changedRecords srcCols tstCols (mergedPairs (dedupByKey bt) bs) := by
  rw [dedupByKey_eq_self hnb] at h
  rw [dedupByKey_eq_self hnt]
  obtain ⟨c, hc, hsc, p, hp, hdiff, rfl⟩ := mem_changedRecords.mp h
  obtain ⟨t, htm, rfl⟩ := List.mem_map.mp hp
  have hks : cleanKey t ∈ keysOf bs := (hkeys _).mpr (cleanKey_mem_keysOf htm)
  obtain ⟨s, hfs⟩ :=
    Option.isSome_iff_exists.mp (findByKey_isSome_of_mem_keys hks)
  obtain ⟨hsm, hskey⟩ := findByKey_eq_some hfs
  have hpath : cleanPath s = cleanPath t := congrArg Prod.fst hskey
  have htag : s.row.tag = t.row.tag := congrArg Prod.snd hskey
  have hft : findByKey bt (cleanKey s) = some t := by
    rw [hskey]
    exact findByKey_self_of_nodup hnt htm
  have hne : getCell t.row c ≠ getCell s.row c := by
    rw [hfs] at hdiff
    simpa [srcVal, cellDiffers] using hdiff
  refine mem_changedRecords.mpr
    ⟨c, List.mem_of_elem_eq_true hsc, List.elem_eq_true_of_mem hc,
     (s, findByKey bt (cleanKey s)), List.mem_map.mpr ⟨s, hsm, rfl⟩, ?_, ?_⟩
  · rw [hft]
    simpa [srcVal, cellDiffers] using fun he => hne he.symm
  · rw [hfs, hft]
    simp [swapRec, srcVal, hpath, htag]

/-! ### Claim theorems -/

/-- C3 counterexample: on a row whose level value `int()` cannot interpret,
`build_path_column` raises (modelled `none`) instead of treating the row as
having an absent level — refuting "the path builder never raises on any
input". -/
theorem C3_counterexample : buildPathColumn [badLvlRow] = none := by decide

/-- C3 (amended): a row whose level is missing (`NaN`) receives no path and
no parent-child key, leaves the stack unchanged, and processing continues;
the builder never raises on inputs whose level cells are all `NaN` or
integers.  (A level value `int()` rejects, however, raises.) -/
theorem C3_malformed_level :
    (∀ (stack : List (Nat × String)) (r : Row) (rs : List Row),
      r.lvl = LvlCell.nan →
      buildRows stack (r :: rs) =
        (buildRows stack rs).map (fun l => ⟨r, none, none⟩ :: l)) ∧
    (∀ rows : List Row, (∀ r ∈ rows, r.lvl ≠ LvlCell.bad) →
      (buildPathColumn rows).isSome) :=
  ⟨fun stack r rs h => buildRows_nan_step stack r rs h,
   fun rows h => buildRows_isSome rows [] h⟩

/-- C3 witness: the amended theorem applied to a concrete `NaN`-level row. -/
theorem C3_witness :
    buildRows [] [nanLvlRow] =
      (buildRows [] []).map (fun l => ⟨nanLvlRow, none, none⟩ :: l) ∧
    (buildPathColumn [nanLvlRow]).isSome :=
  ⟨C3_malformed_level.1 [] nanLvlRow [] rfl,
   C3_malformed_level.2 [nanLvlRow] (by decide)⟩

/-- C5: processing a row at level L (re)assigns the stack entry at L to the
row's component and prunes every entry at a level strictly above L, so the
resulting stack holds no entry above L; and on the concrete level sequence
[0,1,2,1] the 4th row's path is the level-0 component joined with its own
level-1 component, without the 3rd row's level-2 component. -/
theorem C5_pathStack_invariant :
    (∀ (stack : List (Nat × String)) (level : Nat) (tag name : String),
      stackGet (buildRowStep stack level tag name).1 level =
        tag ++ "__" ++ name ∧
      ∀ p ∈ (buildRowStep stack level tag name).1, p.1 ≤ level) ∧
    (buildPathColumn rowsLvl0121).map (fun l => l.map BuiltRow.path) =
      some [some "t0__n0", some "t0__n0 > t1__n1",
            some "t0__n0 > t1__n1 > t2__n2", some "t0__n0 > t3__n3"] :=
  ⟨fun stack level tag name =>
    ⟨by
      rw [buildRowStep_stack_def]
      exact stackGet_stackStep stack level (tag ++ "__" ++ name),
     fun p hp => mem_buildRowStep_le hp⟩,
   by decide⟩

/-- C5 witness: the invariant applied to the empty stack at level 0. -/
theorem C5_witness :
    stackGet (buildRowStep [] 0 "t0" "n0").1 0 = "t0" ++ "__" ++ "n0" ∧
    ((0 : Nat), "t0__n0").1 ≤ 0 :=
  ⟨(C5_pathStack_invariant.1 [] 0 "t0" "n0").1,
   (C5_pathStack_invariant.1 [] 0 "t0" "n0").2 ((0 : Nat), "t0__n0")
     (by decide)⟩

/-- C6: every row with a present level has a parent-child key equal to the
" > "-join of the last two non-empty components of its hierarchy path, or
the full rendered path when fewer than two non-empty components exist. -/
theorem C6_parentChildKey :
    ∀ (rows : List Row) (built : List BuiltRow) (b : BuiltRow) (p : String),
      buildPathColumn rows = some built → b ∈ built → b.path = some p →
      ∃ comps : List String, p = String.intercalate " > " comps ∧
        b.pcKey = some (if 2 ≤ ((comps.filter (fun x => x ≠ "")).length) then
            String.intercalate " > " ((comps.filter (fun x => x ≠ "")).drop
              ((comps.filter (fun x => x ≠ "")).length - 2))
          else p) :=
  fun rows built b p h hb hp => buildRows_path_pcKey rows [] built h b hb p hp

/-- C6 witness: the characterisation applied to the 3rd row of the
[0,1,2,1] sequence (three components, key keeps the last two). -/
theorem C6_witness :
    ∃ comps : List String,
      "t0__n0 > t1__n1 > t2__n2" = String.intercalate " > " comps ∧
      (⟨mkLvlRow 2 "t2" "n2", some "t0__n0 > t1__n1 > t2__n2",
        some "t1__n1 > t2__n2"⟩ : BuiltRow).pcKey =
        some (if 2 ≤ ((comps.filter (fun x => x ≠ "")).length) then
            String.intercalate " > " ((comps.filter (fun x => x ≠ "")).drop
              ((comps.filter (fun x => x ≠ "")).length - 2))
          else "t0__n0 > t1__n1 > t2__n2") :=
  C6_parentChildKey rowsLvl0121
    [⟨mkLvlRow 0 "t0" "n0", some "t0__n0", some "t0__n0"⟩,
     ⟨mkLvlRow 1 "t1" "n1", some "t0__n0 > t1__n1", some "t0__n0 > t1__n1"⟩,
     ⟨mkLvlRow 2 "t2" "n2", some "t0__n0 > t1__n1 > t2__n2",
      some "t1__n1 > t2__n2"⟩,
     ⟨mkLvlRow 1 "t3" "n3", some "t0__n0 > t3__n3", some "t0__n0 > t3__n3"⟩]
    ⟨mkLvlRow 2 "t2" "n2", some "t0__n0 > t1__n1 > t2__n2",
     some "t1__n1 > t2__n2"⟩
    "t0__n0 > t1__n1 > t2__n2" (by decide) (by decide) rfl

/-- C9 counterexample: on the §8 single-row scenario the pipeline does not
produce exactly one difference record. -/
theorem C9_counterexample :
    (processExcel srcScenario tstScenario).map List.length ≠ some 1 := by
  decide

/-- C9 (amended): the scenario produces exactly two records — the claimed
`Changed` record (path "A__Root", tag "A", column "Value", test "Y", source
"X") followed by a duplicate `Changed (Loose Match)` record with empty path
emitted by the loose tier, which is not gated on earlier tiers. -/
theorem C9_scenario :
    processExcel srcScenario tstScenario =
      some [⟨"A__Root", "A", "Value", some "Y", some "X", .changed⟩,
            ⟨"", "A", "Value", some "Y", some "X", .changedLoose⟩] := by
  decide

/-- C4 counterexample: a tier-1-matched pair with test value "" and source
value "X" — one side empty after trimming — still emits a `Changed` record,
refuting "emitted only if both sides are present (non-empty) and unequal". -/
theorem C4_counterexample :
    processExcel srcOneEmpty tstOneEmpty =
      some [⟨"A__R", "A", "Value", some "", some "X", .changed⟩,
            ⟨"", "A", "Value", some "", some "X", .changedLoose⟩] := by
  decide

/-- C4 (amended): for every row pair matched at tier 1 and every shared
column, a `Changed` record is emitted iff the two values (empty or not) are
unequal; equal values emit no record.  Presence of both sides is not
required. -/
theorem C4_changed_iff_unequal :
    ∀ (src tst : Dataset) (bs bt : List BuiltRow) (recs : List DiffRecord)
      (t s : BuiltRow) (c : String),
      buildPathColumn src.rows = some bs →
      buildPathColumn tst.rows = some bt →
      processExcel src tst = some recs →
      t ∈ bt → findByKey (dedupByKey bs) (cleanKey t) = some s →
      c ∈ tst.cols → src.cols.contains c = true →
      ((⟨cleanPath t, t.row.tag, c, some (getCell t.row c),
         some (getCell s.row c), .changed⟩ : DiffRecord) ∈ recs ↔
        getCell t.row c ≠ getCell s.row c) := by
  intro src tst bs bt recs t s c hs ht hp htm hfind hc hsc
  rw [mem_processExcel_changed hs ht hp rfl]
  constructor
  · intro h
    obtain ⟨c', _, _, p, _, hdiff, heq⟩ := mem_changedRecords.mp h
    have hcol : c = c' := congrArg DiffRecord.column heq
    subst hcol
    have htv : some (getCell t.row c) = some (getCell p.1.row c) :=
      congrArg DiffRecord.testValue heq
    have hsv : some (getCell s.row c) = srcVal p c :=
      congrArg DiffRecord.sourceValue heq
    rw [← hsv] at hdiff
    have : (getCell p.1.row c != getCell s.row c) = true := by
      simpa [cellDiffers] using hdiff
    rw [← Option.some.inj htv] at this
    simpa using this
  · intro hne
    refine mem_changedRecords.mpr
      ⟨c, hc, hsc, (t, findByKey (dedupByKey bs) (cleanKey t)),
       List.mem_map.mpr ⟨t, htm, rfl⟩, ?_, ?_⟩
    · rw [hfind]
      simpa [srcVal, cellDiffers] using hne
    · rw [hfind]
      rfl

/-- C4 witness: the amended equivalence at the concrete one-empty pair. -/
theorem C4_witness :
    (⟨cleanPath tstOneEmptyBuilt, tstOneEmptyBuilt.row.tag, "Value",
      some (getCell tstOneEmptyBuilt.row "Value"),
      some (getCell srcOneEmptyBuilt.row "Value"), .changed⟩ : DiffRecord) ∈
        [⟨"A__R", "A", "Value", some "", some "X", .changed⟩,
         ⟨"", "A", "Value", some "", some "X", .changedLoose⟩] ↔
      getCell tstOneEmptyBuilt.row "Value" ≠
        getCell srcOneEmptyBuilt.row "Value" :=
  C4_changed_iff_unequal srcOneEmpty tstOneEmpty
    [srcOneEmptyBuilt] [tstOneEmptyBuilt]
    [⟨"A__R", "A", "Value", some "", some "X", .changed⟩,
     ⟨"", "A", "Value", some "", some "X", .changedLoose⟩]
    tstOneEmptyBuilt srcOneEmptyBuilt "Value"
    (by decide) (by decide) (by decide) (by decide) (by decide) (by decide)
    (by decide)

/-- C1 counterexample: a test row whose primary key ("T__N", "T") is present
in the source key set (tier-1 match, `Changed` emitted) and whose tag is
unique in both datasets additionally receives a `Changed (Loose Match)`
record — refuting "no loose record is ever emitted for a row already
matched at an earlier tier". -/
theorem C1_counterexample :
    processExcel srcTier tstTier =
      some [⟨"T__N", "T", "Value", some "Q", some "P", .changed⟩,
            ⟨"", "T", "Value", some "Q", some "P", .changedLoose⟩] ∧
    (buildPathColumn tstTier.rows).map keysOf = some [("T__N", "T")] ∧
    (buildPathColumn srcTier.rows).map (fun bs => keysOf (dedupByKey bs)) =
      some [("T__N", "T")] := by
  refine ⟨by decide, by decide, by decide⟩

/-- C1 (amended): the loose tier is not gated on earlier tiers.  Whenever a
tag occurs exactly once in each dataset, the loose comparison runs on the
two rows bearing it — whether or not the test row was already matched at
tier 1 — and emits a `Changed (Loose Match)` record for every test output
column whose stripped values differ. -/
theorem C1_loose_not_gated :
    ∀ (src tst : Dataset) (bs bt : List BuiltRow) (recs : List DiffRecord)
      (tag : String) (t s : Row) (c : String),
      buildPathColumn src.rows = some bs →
      buildPathColumn tst.rows = some bt →
      processExcel src tst = some recs →
      tagCount tst.rows tag = 1 → tagCount src.rows tag = 1 →
      tst.rows.find? (fun x => x.tag = tag) = some t →
      src.rows.find? (fun x => x.tag = tag) = some s →
      c ∈ tst.cols → pyStrip (getCell t c) ≠ pyStrip (getCell s c) →
      (⟨"", tag, c, some (pyStrip (getCell t c)),
        some (pyStrip (getCell s c)), .changedLoose⟩ : DiffRecord) ∈ recs := by
  intro src tst bs bt recs tag t s c hs ht hp h1 h2 hf1 hf2 hc hne
  refine mem_processExcel_of_loose hs ht hp ?_
  exact mem_looseRecords.mpr
    ⟨tag, mem_uniqueTags.mpr ⟨h1, h2⟩, t, s, hf1, hf2, c, hc, hne, rfl⟩

/-- C1 witness: the amended theorem at the concrete tier-precedence pair. -/
theorem C1_witness :
    (⟨"", "T", "Value", some (pyStrip (getCell (mkRow0 "T" "N" "Q") "Value")),
      some (pyStrip (getCell (mkRow0 "T" "N" "P") "Value")),
      .changedLoose⟩ : DiffRecord) ∈
      [⟨"T__N", "T", "Value", some "Q", some "P", .changed⟩,
       ⟨"", "T", "Value", some "Q", some "P", .changedLoose⟩] :=
  C1_loose_not_gated srcTier tstTier
    [⟨mkRow0 "T" "N" "P", some "T__N", some "T__N"⟩]
    [⟨mkRow0 "T" "N" "Q", some "T__N", some "T__N"⟩]
    [⟨"T__N", "T", "Value", some "Q", some "P", .changed⟩,
     ⟨"", "T", "Value", some "Q", some "P", .changedLoose⟩]
    "T" (mkRow0 "T" "N" "Q") (mkRow0 "T" "N" "P") "Value"
    (by decide) (by decide) (by decide) (by decide) (by decide) (by decide)
    (by decide) (by decide) (by decide)

/-- C7: the loose tier is driven exactly by double uniqueness: every
`Changed (Loose Match)` record carries a tag occurring exactly once in the
source rows and exactly once in the test rows; a tag whose source count is
not one never yields a loose record; and the tier's selected tag list holds
a tag iff both counts equal one. -/
theorem C7_loose_exclusivity :
    (∀ (tc : List String) (srcRows tstRows : List Row) (r : DiffRecord),
      r ∈ looseRecords tc srcRows tstRows →
      tagCount srcRows r.tag = 1 ∧ tagCount tstRows r.tag = 1) ∧
    (∀ (tc : List String) (srcRows tstRows : List Row) (tag : String),
      tagCount srcRows tag ≠ 1 →
      ∀ r ∈ looseRecords tc srcRows tstRows, r.tag ≠ tag) ∧
    (∀ (srcRows tstRows : List Row) (tag : String),
      tag ∈ uniqueTags srcRows tstRows ↔
        tagCount tstRows tag = 1 ∧ tagCount srcRows tag = 1) := by
  refine ⟨?_, ?_, ?_⟩
  · intro tc srcRows tstRows r hr
    obtain ⟨tag, htag, t, s, _, _, c, _, _, rfl⟩ := mem_looseRecords.mp hr
    have := mem_uniqueTags.mp htag
    exact ⟨this.2, this.1⟩
  · intro tc srcRows tstRows tag hcount r hr htag
    obtain ⟨tag', htag', t, s, _, _, c, _, _, rfl⟩ := mem_looseRecords.mp hr
    have heq : tag' = tag := htag
    subst heq
    exact hcount (mem_uniqueTags.mp htag').2
  · intro srcRows tstRows tag
    exact mem_uniqueTags

/-- C7 witness: the exclusivity facts at the concrete tier-precedence pair
(tag "T" unique on both sides). -/
theorem C7_witness :
    ("T" ∈ uniqueTags srcTier.rows tstTier.rows) ∧
    (tagCount srcTier.rows "T" = 1 ∧ tagCount tstTier.rows "T" = 1) :=
  ⟨(C7_loose_exclusivity.2.2 srcTier.rows tstTier.rows "T").mpr
     ⟨by decide, by decide⟩,
   C7_loose_exclusivity.1 ["Name", "Value"] srcTier.rows tstTier.rows
     ⟨"", "T", "Value", some "Q", some "P", .changedLoose⟩ (by decide)⟩

/-- C10: deduplication is one-sided.  Key lookup in the deduplicated source
equals lookup in the original row list (the first occurrence is retained),
the tier-1 merge pairs every test row — duplicate test keys are never
collapsed — and for each shared column the `Changed` records are exactly
one per differing (possibly duplicate-keyed) test row. -/
theorem C10_one_sided_dedup :
    (∀ (bs : List BuiltRow) (k : String × String),
      findByKey (dedupByKey bs) k = findByKey bs k) ∧
    (∀ (srcClean bt : List BuiltRow),
      mergedPairs srcClean bt =
        bt.map (fun t => (t, findByKey srcClean (cleanKey t)))) ∧
    (∀ (tc sc : List String) (ps : List (BuiltRow × Option BuiltRow))
      (c : String), tc.Nodup → c ∈ tc → sc.contains c = true →
      (changedRecords tc sc ps).filter (fun r => r.column = c) =
        (ps.filter (fun p =>
            cellDiffers (getCell p.1.row c) (srcVal p c))).map
          (fun p => ⟨cleanPath p.1, p.1.row.tag, c,
                     some (getCell p.1.row c), srcVal p c, .changed⟩)) :=
  ⟨findByKey_dedupByKey, fun _ _ => rfl,
   fun _ _ _ _ hnc hc hsc => changedRecords_filter_column hnc hc hsc⟩

/-- C10 witness: two duplicate-key test rows each emit their own `Changed`
record against the same source row. -/
theorem C10_witness :
    (changedRecords ["Name", "Value"] ["Name", "Value"] dupTestPairs).filter
        (fun r => r.column = "Value") =
      (dupTestPairs.filter (fun p =>
          cellDiffers (getCell p.1.row "Value") (srcVal p "Value"))).map
        (fun p => ⟨cleanPath p.1, p.1.row.tag, "Value",
                   some (getCell p.1.row "Value"), srcVal p "Value",
                   .changed⟩) :=
  C10_one_sided_dedup.2.2 ["Name", "Value"] ["Name", "Value"] dupTestPairs
    "Value" (by decide) (by decide) (by decide)

/-- C2 counterexample: a key present only in the test dataset
(("B__S", "B")) receives cell-level `Changed` records (with `NaN` source
side) in addition to its `New in Test` records — refuting "a key present
only in the test dataset yields `New in Test` records and no cell-level
`Changed` records". -/
theorem C2_counterexample :
    processExcel srcPresence tstPresence = some recsPresence ∧
    (⟨"B__S", "B", "Name", some "S", none, .changed⟩ : DiffRecord) ∈
      recsPresence := by
  refine ⟨by decide, by decide⟩

/-- C2 (amended): a key present only in the source yields exactly one
`Missing in Test` record per test output column and zero `Changed` records
(every tier-1 `Changed` record carries a test-row key); a key present only
in the test dataset yields its `New in Test` records but also one tier-1
`Changed` record per shared column, whose source side is the unmatched
merge's `NaN`. -/
theorem C2_row_presence :
    ∀ (src tst : Dataset) (bs bt : List BuiltRow) (recs : List DiffRecord),
      buildPathColumn src.rows = some bs →
      buildPathColumn tst.rows = some bt →
      processExcel src tst = some recs →
      (∀ r ∈ recs, r.type = DiffType.changed → (r.path, r.tag) ∈ keysOf bt) ∧
      (tst.cols.Nodup → ∀ s ∈ dedupByKey bs, cleanKey s ∉ keysOf bt →
        ∀ c ∈ tst.cols,
          recs.count ⟨cleanPath s, s.row.tag, c, some "",
            some (getCell s.row c), .missingInTest⟩ = 1) ∧
      (∀ t ∈ bt, cleanKey t ∉ keysOf (dedupByKey bs) → ∀ c ∈ tst.cols,
        ((⟨cleanPath t, t.row.tag, c, some (getCell t.row c), some "",
          .newInTest⟩ : DiffRecord) ∈ recs ∧
        (src.cols.contains c = true →
          (⟨cleanPath t, t.row.tag, c, some (getCell t.row c), none,
            .changed⟩ : DiffRecord) ∈ recs))) := by
  intro src tst bs bt recs hs ht hp
  have he := processExcel_eq hs ht
  rw [hp] at he
  have hrecs := Option.some.inj he
  refine ⟨?_, ?_, ?_⟩
  · intro r hr hty
    rw [mem_processExcel_changed hs ht hp hty] at hr
    obtain ⟨c, _, _, p, hpm, _, rfl⟩ := mem_changedRecords.mp hr
    obtain ⟨t, htm, rfl⟩ := List.mem_map.mp hpm
    exact cleanKey_mem_keysOf htm
  · intro hnc s hsm hknot c hc
    subst hrecs
    rw [List.count_append, List.count_append, List.count_append,
        List.count_append]
    have hA : (changedRecords tst.cols src.cols
        (mergedPairs (dedupByKey bs) bt)).count
        (⟨cleanPath s, s.row.tag, c, some "", some (getCell s.row c),
          .missingInTest⟩ : DiffRecord) = 0 :=
      List.count_eq_zero.mpr
        (fun hmem => DiffType.noConfusion (type_of_changedRecords hmem))
    have hB : (newRecords tst.cols (keysOf (dedupByKey bs)) bt).count
        (⟨cleanPath s, s.row.tag, c, some "", some (getCell s.row c),
          .missingInTest⟩ : DiffRecord) = 0 :=
      List.count_eq_zero.mpr
        (fun hmem => DiffType.noConfusion (type_of_newRecords hmem))
    have hD : (fallbackRecords tst.cols src.cols
        (fallbackPairs src.cols bs bt)).count
        (⟨cleanPath s, s.row.tag, c, some "", some (getCell s.row c),
          .missingInTest⟩ : DiffRecord) = 0 :=
      List.count_eq_zero.mpr
        (fun hmem => DiffType.noConfusion (type_of_fallbackRecords hmem))
    have hE : (looseRecords tst.cols src.rows tst.rows).count
        (⟨cleanPath s, s.row.tag, c, some "", some (getCell s.row c),
          .missingInTest⟩ : DiffRecord) = 0 :=
      List.count_eq_zero.mpr
        (fun hmem => DiffType.noConfusion (type_of_looseRecords hmem))
    have hC : (missingRecords tst.cols (keysOf bt) (dedupByKey bs)).count
        (⟨cleanPath s, s.row.tag, c, some "", some (getCell s.row c),
          .missingInTest⟩ : DiffRecord) = 1 :=
      count_missingRecords_eq_one (keysOf_dedupByKey_nodup bs) hnc hsm
        hknot hc
    rw [hA, hB, hC, hD, hE]
  · intro t htm hknot c hc
    subst hrecs
    constructor
    · have hmem : (⟨cleanPath t, t.row.tag, c, some (getCell t.row c),
          some "", .newInTest⟩ : DiffRecord) ∈
          newRecords tst.cols (keysOf (dedupByKey bs)) bt :=
        mem_newRecords.mpr ⟨t, htm, hknot, c, hc, rfl⟩
      simp only [List.mem_append]
      exact Or.inl (Or.inl (Or.inl (Or.inr hmem)))
    · intro hsc
      have hfind : findByKey (dedupByKey bs) (cleanKey t) = none :=
        findByKey_eq_none hknot
      have hmem : (⟨cleanPath t, t.row.tag, c, some (getCell t.row c),
          none, .changed⟩ : DiffRecord) ∈
          changedRecords tst.cols src.cols
            (mergedPairs (dedupByKey bs) bt) := by
        refine mem_changedRecords.mpr
          ⟨c, hc, hsc, (t, findByKey (dedupByKey bs) (cleanKey t)),
           List.mem_map.mpr ⟨t, htm, rfl⟩, ?_, ?_⟩
        · rw [hfind]
          rfl
        · rw [hfind]
          rfl
      simp only [List.mem_append]
      exact Or.inl (Or.inl (Or.inl (Or.inl hmem)))

/-- C2 witness: the amended facts at the concrete presence pair — one
missing record per column for the source-only key, and for the test-only
key both its new record and its `NaN`-source changed record. -/
theorem C2_witness :
    recsPresence.count ⟨"A__R", "A", "Value", some "", some "X",
      .missingInTest⟩ = 1 ∧
    ((⟨"B__S", "B", "Value", some "Y", some "", .newInTest⟩ : DiffRecord) ∈
        recsPresence ∧
      (⟨"B__S", "B", "Value", some "Y", none, .changed⟩ : DiffRecord) ∈
        recsPresence) :=
  ⟨(C2_row_presence srcPresence tstPresence
      [⟨mkRow0 "A" "R" "X", some "A__R", some "A__R"⟩]
      [⟨mkRow0 "B" "S" "Y", some "B__S", some "B__S"⟩] recsPresence
      (by decide) (by decide) (by decide)).2.1 (by decide)
      ⟨mkRow0 "A" "R" "X", some "A__R", some "A__R"⟩ (by decide) (by decide)
      "Value" (by decide),
   let h := (C2_row_presence srcPresence tstPresence
      [⟨mkRow0 "A" "R" "X", some "A__R", some "A__R"⟩]
      [⟨mkRow0 "B" "S" "Y", some "B__S", some "B__S"⟩] recsPresence
      (by decide) (by decide) (by decide)).2.2
      ⟨mkRow0 "B" "S" "Y", some "B__S", some "B__S"⟩ (by decide) (by decide)
      "Value" (by decide)
   ⟨h.1, h.2 (by decide)⟩⟩

/-- C8 counterexample: on a pair whose keys do not overlap, swapping the
inputs and exchanging the value sides does not reproduce the `Changed`
set — the two directions report different (key, column) pairs. -/
theorem C8_counterexample :
    ((processExcel srcSwap tstSwap).map (fun l =>
        l.filter (fun r => r.type = DiffType.changed))) =
      some [⟨"B__M", "B", "Name", some "M", none, .changed⟩,
            ⟨"B__M", "B", "Value", some "Y", none, .changed⟩] ∧
    ((processExcel tstSwap srcSwap).map (fun l =>
        l.filter (fun r => r.type = DiffType.changed))) =
      some [⟨"A__N", "A", "Name", some "N", none, .changed⟩,
            ⟨"A__N", "A", "Value", some "X", none, .changed⟩] ∧
    ([⟨"B__M", "B", "Name", some "M", none, .changed⟩,
      ⟨"B__M", "B", "Value", some "Y", none, .changed⟩].map swapRec ≠
      [⟨"A__N", "A", "Name", some "N", none, .changed⟩,
       ⟨"A__N", "A", "Value", some "X", none, .changed⟩]) := by
  refine ⟨by decide, by decide, by decide⟩

/-- C8 (amended): when both built datasets have pairwise-distinct keys and
the same key set, swapping source and test and exchanging the value sides
leaves the `Changed` set unchanged: a `Changed` record appears in one
direction iff its side-swapped form appears in the other. -/
theorem C8_swap_symmetry :
    ∀ (src tst : Dataset) (bs bt : List BuiltRow)
      (recsA recsB : List DiffRecord),
      buildPathColumn src.rows = some bs →
      buildPathColumn tst.rows = some bt →
      processExcel src tst = some recsA →
      processExcel tst src = some recsB →
      (keysOf bs).Nodup → (keysOf bt).Nodup →
      (∀ k, k ∈ keysOf bs ↔ k ∈ keysOf bt) →
      ∀ r : DiffRecord, r.type = DiffType.changed →
        (r ∈ recsA ↔ swapRec r ∈ recsB) := by
  intro src tst bs bt recsA recsB hs ht hpA hpB hnb hnt hkeys r hty
  rw [mem_processExcel_changed hs ht hpA hty,
      @mem_processExcel_changed tst src bt bs recsB (swapRec r) ht hs hpB hty]
  constructor
  · exact fun h => changed_swap_aux hnb hnt hkeys h
  · intro h
    have h2 := changed_swap_aux hnt hnb (fun k => (hkeys k).symm) h
    rwa [swapRec_swapRec] at h2

/-- C8 witness: the symmetry applied to the §8 scenario pair (same single
key on both sides). -/
theorem C8_witness :
    (⟨"A__Root", "A", "Value", some "Y", some "X", .changed⟩ : DiffRecord) ∈
        [⟨"A__Root", "A", "Value", some "Y", some "X", .changed⟩,
         ⟨"", "A", "Value", some "Y", some "X", .changedLoose⟩] ↔
      swapRec ⟨"A__Root", "A", "Value", some "Y", some "X", .changed⟩ ∈
        [⟨"A__Root", "A", "Value", some "X", some "Y", .changed⟩,
         ⟨"", "A", "Value", some "X", some "Y", .changedLoose⟩] :=
  C8_swap_symmetry srcScenario tstScenario
    [⟨mkRow0 "A" "Root" "X", some "A__Root", some "A__Root"⟩]
    [⟨mkRow0 "A" "Root" "Y", some "A__Root", some "A__Root"⟩]
    [⟨"A__Root", "A", "Value", some "Y", some "X", .changed⟩,
     ⟨"", "A", "Value", some "Y", some "X", .changedLoose⟩]
    [⟨"A__Root", "A", "Value", some "X", some "Y", .changed⟩,
     ⟨"", "A", "Value", some "X", some "Y", .changedLoose⟩]
    (by decide) (by decide) (by decide) (by decide) (by decide) (by decide)
    (fun _ => Iff.rfl)
    ⟨"A__Root", "A", "Value", some "Y", some "X", .changed⟩ rfl
